import Mathlib

/-!
Verification development for the citation dispatcher / worker pipeline
(`src/dispatcher_citation/citation_dispatcher_lambda.py` and
`src/worker_citation/citation_worker_lambda.py`).

The Python sources are shallowly embedded: JSON values become `JVal`,
pandas rows become `Row`, the SQS publishing loop of `dispatch_dataframe`
becomes `dispatchLoop`, the worker's per-record processing becomes
`process_paper`, and its SQS-triggered entry point becomes `Worker.handler`.
External calls (S3, SQS, the OpenAlex HTTP API) are modelled by explicit
inputs describing their outcomes; S3 writes and raised exceptions are
explicit outputs.
-/

namespace CitationPipeline

/-- JSON scalar values as they appear in message bodies and parsed rows.
`null` also stands for a pandas missing value (`NaN`), which `dropna` removes. -/
inductive JVal : Type
  | str (s : String)
  | num (n : Int)
  | null
  deriving DecidableEq, Repr

/-- Python `str(...)` on an embedded JSON scalar (used in f-strings and
`str(row['title'])`). -/
def pyStr : JVal → String
  | .str s => s
  | .num n => toString n
  | .null => "None"

/-- Python truthiness of a JSON scalar (`if not paper_id or not title`). -/
def truthy : JVal → Bool
  | .str s => s ≠ ""
  | .num n => n ≠ 0
  | .null => false

/-- A JSON object, as an ordered association list of fields. -/
abbrev JObj := List (String × JVal)

/-- Python `dict.get` on a parsed JSON object. -/
def lookupKey (o : JObj) (k : String) : Option JVal :=
  (o.find? (fun p => p.1 = k)).map (fun p => p.2)

/-- One row of the dispatcher's dataframe, restricted to the two columns
`['id', 'title']` the handler selects. -/
structure Row where
  id : JVal
  title : JVal
  deriving DecidableEq, Repr

/-- The body `{'paper_id': row['id'], 'title': str(row['title'])}` built for
each SQS message in `dispatch_dataframe`. -/
def mkBody (r : Row) : JObj :=
  [("paper_id", r.id), ("title", .str (pyStr r.title))]

/-- The sanitised SQS entry id: `re.sub(r'[^a-zA-Z0-9_-]', '_', str(row['id']))[:80]`. -/
def safeId (s : String) : String :=
  String.mk ((s.toList.map
    (fun c => if c.isAlphanum || c = '_' || c = '-' then c else '_')).take 80)

/-- One entry of a `send_message_batch` call: `{'Id': safe_id, 'MessageBody': ...}`. -/
structure Entry where
  sqsId : String
  body : JObj
  deriving DecidableEq, Repr

/-- Builds the SQS batch entry for one dataframe row. -/
def mkEntry (r : Row) : Entry :=
  ⟨safeId (pyStr r.id), mkBody r⟩

/-- One failed entry reported in a `send_message_batch` response. -/
structure SendFailure where
  id : String
  reason : String
  deriving DecidableEq, Repr

/-- Successive slices of length 10, as produced by
`for i in range(0, len(df), batch_size)` with `batch_size = 10`. -/
def chunks10 {α : Type} : List α → List (List α)
  | [] => []
  | a :: as => ((a :: as).take 10) :: chunks10 ((a :: as).drop 10)
  termination_by l => l.length
  decreasing_by
    simp only [List.length_drop, List.length_cons]
    omega

/-- The loop body of `dispatch_dataframe`: chunk the rows into groups of 10,
build the entries of each chunk, call `send_message_batch` on each nonempty
entry list and add its size to the running count.  The queue's response
(`failures` gives, per call index, the entries it reports as failed) is
received but never inspected, exactly as in the source, which discards the
return value of `sqs.send_message_batch`. -/
def dispatchLoop (failures : Nat → List SendFailure) (callIdx : Nat) (l : List Row) :
    List (List Entry) × Nat :=
  if l = [] then ([], 0)
  else
    let entries := (l.take 10).map mkEntry
    let rest := dispatchLoop failures (callIdx + 1) (l.drop 10)
    if entries.isEmpty then rest else (entries :: rest.1, rest.2 + entries.length)
  termination_by l.length
  decreasing_by
    simp only [List.length_drop]
    have : l ≠ [] := by assumption
    have := List.length_pos.mpr this
    omega

/-- Embedding of `dispatch_dataframe`: returns the list of
`send_message_batch` calls made (each a list of entries, in order) and the
returned `message_count`. -/
def dispatch_dataframe (failures : Nat → List SendFailure) (df : List Row) :
    List (List Entry) × Nat :=
  if df = [] then ([], 0) else dispatchLoop failures 0 df

/-- Rows kept by `df[['id', 'title']].dropna()`: both selected cells present
(`JVal.null` stands for a missing value / `NaN`). -/
def validRow (r : Row) : Bool :=
  r.id ≠ JVal.null && r.title ≠ JVal.null

/-- The per-file step of the dispatcher's `handler`: when the frame has both
an `id` and a `title` column the cleaned subset is dispatched, otherwise the
file is skipped with a warning and nothing is published. -/
def processFile (failures : Nat → List SendFailure) (hasIdCol hasTitleCol : Bool)
    (rows : List Row) : List (List Entry) × Nat :=
  if hasIdCol && hasTitleCol then dispatch_dataframe failures (rows.filter validRow)
  else ([], 0)

/-- Embedding of `run_test_mode` from the point where the first record of the
test file has been parsed: a one-row frame is built from it and, when both
columns exist, dispatched through `dispatch_dataframe`. -/
def run_test_mode (failures : Nat → List SendFailure) (record : JObj) :
    List (List Entry) × Nat :=
  match lookupKey record "id", lookupKey record "title" with
  | some i, some t => dispatch_dataframe failures [⟨i, t⟩]
  | _, _ => ([], 0)

/-- Modelled from the spec: the reverse-dispatch Queue Publisher variant is
one of the repository's near-duplicate Lambda copies that is not among the
files under `src/`.  Per the spec, all batch-reference messages of one
dispatcher invocation are collected before any is sent, the full collected
sequence is reversed, and the result is chunked into sub-batch calls of at
most the queue's 10-entries-per-call limit. -/
def reverseDispatch {α : Type} (msgs : List α) : List (List α) :=
  chunks10 msgs.reverse

namespace Worker

/-- An author object inside an authorship of an OpenAlex work
(`authorship['author']`), with its `id` and `display_name` fields. -/
structure Author where
  id : Option String
  display_name : Option String
  deriving DecidableEq, Repr

/-- One element of a work's `authorships` list. -/
structure Authorship where
  author : Option Author
  deriving DecidableEq, Repr

/-- One OpenAlex work as used by the worker. -/
structure Work where
  display_name : Option String
  cited_by_count : Option Int
  authorships : List Authorship
  deriving DecidableEq, Repr

/-- Parsed body of the OpenAlex works search response. -/
structure WorksResponse where
  results : List Work
  deriving DecidableEq, Repr

/-- One author record from the OpenAlex authors endpoint; `h_index` is the
value of `summary_stats.h_index` when present. -/
structure AuthorRecord where
  id : String
  h_index : Option Int
  deriving DecidableEq, Repr

/-- Outcome of one `requests.get(...)` followed by `raise_for_status()`:
a parsed body, an `HTTPError` with its status code, or any other exception
(network error, timeout, JSON parse failure, ...). -/
inductive CallResult (α : Type) : Type
  | ok (v : α)
  | httpError (status : Nat)
  | exn
  deriving DecidableEq, Repr

/-- Python `s.split('/')[-1]`: the suffix of `s` after its last `'/'`
(the whole of `s` when it contains no `'/'`). -/
def lastSeg (s : String) : String :=
  String.mk ((s.toList.reverse.takeWhile (fun c => c ≠ '/')).reverse)

/-- The short author id extracted from one authorship, when
`authorship.get('author') and authorship['author'].get('id')` is truthy:
`authorship['author']['id'].split('/')[-1]`. -/
def authIdOf (a : Authorship) : Option String :=
  match a.author with
  | none => none
  | some au =>
    match au.id with
    | none => none
    | some i => if i = "" then none else some (lastSeg i)

/-- The `author_ids` list comprehension in `process_paper`. -/
def author_ids_of (w : Work) : List String :=
  w.authorships.filterMap authIdOf

/-- The `author_details_map` dict comprehension: keyed by
`author['id'].split('/')[-1]`, later entries overwriting earlier ones. -/
def buildAuthorMap (recs : List AuthorRecord) : String → Option AuthorRecord :=
  recs.foldl (fun m a => fun k => if k = lastSeg a.id then some a else m k)
    (fun _ => none)

/-- One element of the Success payload's `authors` list. -/
structure AuthorInfo where
  name : Option String
  hIndex : Option Int
  deriving DecidableEq, Repr

/-- The `author_info` list built in `process_paper`: iterate the work's
authorships in order, keep those with a truthy author id, take the display
name from the work record and the h-index from the author-details map
(`None` when the map has no entry for that id). -/
def authorInfoOf (w : Work) (recs : List AuthorRecord) : List AuthorInfo :=
  w.authorships.filterMap (fun a =>
    match authIdOf a with
    | none => none
    | some aid =>
      some ⟨a.author.bind (fun au => au.display_name),
            (buildAuthorMap recs aid).bind (fun d => d.h_index)⟩)

/-- The Success payload written to `citation_results/success/<id>.json`. -/
structure SuccessResult where
  original_id : JVal
  searched_title : JVal
  found_paper_title : Option String
  citationCount : Option Int
  authors : List AuthorInfo
  deriving DecidableEq, Repr

/-- One `s3.put_object` performed by the worker, tagged with its key and the
kind of payload written. -/
inductive S3Write : Type
  | success (key : String) (r : SuccessResult)
  | notFound (key : String) (paper_id : JVal) (title : JVal) (details : String)
  | permanentError (key : String) (error_type : String)
  | retriableError (key : String)
  deriving DecidableEq, Repr

/-- Result of running a piece of worker code: the S3 writes it performed in
order, whether an exception escaped it, and how many OpenAlex HTTP requests
it issued. -/
structure ProcResult where
  writes : List S3Write
  raised : Bool
  apiCalls : Nat
  deriving DecidableEq, Repr

def successKey (pid : JVal) : String :=
  "citation_results/success/" ++ pyStr pid ++ ".json"

def notFoundKey (pid : JVal) : String :=
  "citation_results/not_found/" ++ pyStr pid ++ ".json"

def permanentKey (s : String) : String :=
  "citation_results/error/" ++ s ++ "_permanent_error.json"

def retriableKey (pid : JVal) : String :=
  "citation_results/error/" ++ pyStr pid ++ "_retriable.json"

/-- Status codes the worker retries: `status_code == 429 or status_code >= 500`. -/
def isTransientStatus (s : Nat) : Bool :=
  s == 429 || 500 ≤ s

/-- Whether a call outcome enters the retriable path of `process_paper`
(a 429/5xx `HTTPError`, or any non-HTTP exception). -/
def transientCall {α : Type} : CallResult α → Bool
  | .ok _ => false
  | .httpError s => isTransientStatus s
  | .exn => true

/-- Embedding of `process_paper`.  `searchResp` is the outcome of the works
search request; `authorsResp` is the outcome of the batched author-details
request, consulted only when the matched work yields a nonempty author-id
list.  The three `except` arms map to: retriable write plus re-raise for
429/5xx/other exceptions, a NotFound write for 404, and a permanent-error
write for the remaining `HTTPError`s. -/
def process_paper (pid title : JVal)
    (searchResp : CallResult WorksResponse)
    (authorsResp : CallResult (List AuthorRecord)) : ProcResult :=
  match searchResp with
  | .exn => ⟨[.retriableError (retriableKey pid)], true, 1⟩
  | .httpError s =>
    if isTransientStatus s then
      ⟨[.retriableError (retriableKey pid)], true, 1⟩
    else if s == 404 then
      ⟨[.notFound (notFoundKey pid) pid title "OpenAlex API returned HTTP 404."], false, 1⟩
    else
      ⟨[.permanentError (permanentKey (pyStr pid)) ("HTTPError_" ++ toString s)], false, 1⟩
  | .ok wd =>
    match wd.results with
    | [] =>
      ⟨[.notFound (notFoundKey pid) pid title
          "No results returned from OpenAlex for this title."], false, 1⟩
    | w :: _ =>
      if author_ids_of w = [] then
        ⟨[.success (successKey pid) ⟨pid, title, w.display_name, w.cited_by_count, []⟩],
          false, 1⟩
      else
        match authorsResp with
        | .exn => ⟨[.retriableError (retriableKey pid)], true, 2⟩
        | .httpError s =>
          if isTransientStatus s then
            ⟨[.retriableError (retriableKey pid)], true, 2⟩
          else if s == 404 then
            ⟨[.notFound (notFoundKey pid) pid title "OpenAlex API returned HTTP 404."],
              false, 2⟩
          else
            ⟨[.permanentError (permanentKey (pyStr pid)) ("HTTPError_" ++ toString s)],
              false, 2⟩
        | .ok recs =>
          ⟨[.success (successKey pid)
              ⟨pid, title, w.display_name, w.cited_by_count, authorInfoOf w recs⟩],
            false, 2⟩

/-- Whether `process_paper` reaches the author-details request: the search
succeeded, yielded at least one work, and that work has a nonempty author-id
list. -/
def authorsConsulted (sr : CallResult WorksResponse) : Bool :=
  match sr with
  | .ok wd =>
    match wd.results with
    | [] => false
    | w :: _ => !(author_ids_of w).isEmpty
  | _ => false

/-- Python truthiness of `dict.get(...)`: `None` (absent key) is falsy. -/
def truthyOpt : Option JVal → Bool
  | none => false
  | some v => truthy v

/-- Python `f"{x}"` where `x` may be `None`. -/
def pyStrOpt : Option JVal → String
  | none => "None"
  | some v => pyStr v

/-- The condition under which the worker's handler forwards a parsed message
body to `process_paper`: both `paper_id` and `title` present and truthy. -/
def workerAccepts (obj : JObj) : Bool :=
  truthyOpt (lookupKey obj "paper_id") && truthyOpt (lookupKey obj "title")

/-- One SQS record together with the outcomes of the external requests the
worker would issue for it.  `body` is `none` when `json.loads` fails on the
record's body. -/
structure RecordEnv where
  body : Option JObj
  search : CallResult WorksResponse
  authorDetails : CallResult (List AuthorRecord)
  deriving DecidableEq, Repr

/-- Embedding of the worker's `handler`: iterate the delivery's records;
a JSON decode failure or a missing/falsy `paper_id`/`title` logs a permanent
error and continues with the next record; otherwise `process_paper` runs,
and if it raises, the exception escapes the loop and the remaining records
are not processed. -/
def handler : List RecordEnv → ProcResult
  | [] => ⟨[], false, 0⟩
  | r :: rest =>
    match r.body with
    | none =>
      let t := handler rest
      ⟨.permanentError (permanentKey "unknown_id_parsing_error") "JSONDecodeError" :: t.writes,
        t.raised, t.apiCalls⟩
    | some obj =>
      if workerAccepts obj then
        let pid := (lookupKey obj "paper_id").getD .null
        let tit := (lookupKey obj "title").getD .null
        let pr := process_paper pid tit r.search r.authorDetails
        if pr.raised then pr
        else
          let t := handler rest
          ⟨pr.writes ++ t.writes, t.raised, pr.apiCalls + t.apiCalls⟩
      else
        let t := handler rest
        ⟨.permanentError (permanentKey (pyStrOpt (lookupKey obj "paper_id")))
            "MalformedMessage" :: t.writes,
          t.raised, t.apiCalls⟩

/-- Key under which an `S3Write` is stored. -/
def S3Write.key : S3Write → String
  | .success k _ => k
  | .notFound k _ _ _ => k
  | .permanentError k _ => k
  | .retriableError k => k

/-- The Result Sink as an association of keys to the last object written. -/
abbrev Sink := List (String × S3Write)

/-- Overwrite semantics of `s3.put_object`. -/
def sinkPut (sink : Sink) (w : S3Write) : Sink :=
  (sink.filter (fun p => p.1 ≠ w.key)) ++ [(w.key, w)]

/-- Apply a sequence of writes to the sink in order. -/
def sinkApply (sink : Sink) (ws : List S3Write) : Sink :=
  ws.foldl sinkPut sink

/-- Read an object from the sink. -/
def sinkGet (sink : Sink) (k : String) : Option S3Write :=
  (sink.find? (fun p => p.1 = k)).map (fun p => p.2)

/-- Authors list as the spec words it, for comparison with the code's
`authorInfoOf`: one entry per author of the matched work that carries an
author identifier, in the original authorship order; each entry is joined
back to the author-details response by author identifier (with the last
matching response record winning, as in a dict build), and an author whose
details are absent gets a null h-index. -/
def specAuthors (w : Work) (recs : List AuthorRecord) : List AuthorInfo :=
  (w.authorships.filter (fun a => (authIdOf a).isSome)).map (fun a =>
    { name := a.author.bind (fun au => au.display_name),
      hIndex := (recs.reverse.find?
          (fun d => lastSeg d.id = (authIdOf a).getD "")).bind (fun d => d.h_index) })

end Worker

namespace Continuation

/-- One invocation of the dispatcher's continuation loop over the files from
`start` on: `timeOk idx` is the negation of
`context.get_remaining_time_in_millis() < 30000` at loop step `idx` (so
`true` means enough time remains and the file at that step is processed).
Returns the files processed by this invocation and, when the budget ran out,
the `start_index` put into the payload of the asynchronous self-invocation:
`start + idx`, the index of the file whose processing has not begun. -/
def runAux {α : Type} (timeOk : Nat → Bool) (start : Nat) :
    List α → Nat → List α × Option Nat
  | [], _ => ([], none)
  | f :: rest, idx =>
    if timeOk idx then
      let r := runAux timeOk start rest (idx + 1)
      (f :: r.1, r.2)
    else ([], some (start + idx))

/-- One dispatcher invocation: iterate `all_files[start_index:]`, checking the
remaining time before each file. -/
def runInvocation {α : Type} (files : List α) (start : Nat) (timeOk : Nat → Bool) :
    List α × Option Nat :=
  runAux timeOk start (files.drop start) 0

/-- The chain of self-invocations: each invocation consumes one remaining-time
reading function from the schedule, and a hand-off feeds its `start_index`
into the next invocation. -/
def runChain {α : Type} (files : List α) : Nat → List (Nat → Bool) → List α
  | _, [] => []
  | start, t :: ts =>
    match runInvocation files start t with
    | (ps, none) => ps
    | (ps, some nxt) => ps ++ runChain files nxt ts

/-- Whether the invocation chain terminates within the schedule: some
invocation finishes its whole file range without handing off. -/
def completes {α : Type} (files : List α) : Nat → List (Nat → Bool) → Bool
  | _, [] => false
  | start, t :: ts =>
    match (runInvocation files start t).2 with
    | none => true
    | some nxt => completes files nxt ts

end Continuation

/-- A concrete 13-row frame used to witness the batching claims. -/
def rows13 : List Row :=
  (List.range 13).map (fun n => ⟨JVal.num n, JVal.str "title"⟩)

theorem chunks10_nil {α : Type} : chunks10 ([] : List α) = [] := by
  rw [chunks10]

theorem chunks10_cons {α : Type} (l : List α) (h : l ≠ []) :
    chunks10 l = l.take 10 :: chunks10 (l.drop 10) := by
  obtain ⟨a, as, rfl⟩ := List.exists_cons_of_ne_nil h
  rw [chunks10]

theorem chunks10_eq_nil_iff {α : Type} (l : List α) : chunks10 l = [] ↔ l = [] := by
  constructor
  · intro h
    by_cases hl : l = []
    · exact hl
    · rw [chunks10_cons l hl] at h
      exact absurd h (by simp)
  · intro h
    rw [h, chunks10_nil]

theorem chunks10_flatten_aux {α : Type} :
    ∀ (n : Nat) (l : List α), l.length ≤ n → (chunks10 l).flatten = l := by
  intro n
  induction n with
  | zero =>
    intro l h
    have hl : l = [] := List.eq_nil_of_length_eq_zero (Nat.le_zero.mp h)
    rw [hl, chunks10_nil]
    rfl
  | succ n ih =>
    intro l h
    by_cases hl : l = []
    · rw [hl, chunks10_nil]
      rfl
    · rw [chunks10_cons l hl]
      have hpos : 0 < l.length := List.length_pos.mpr hl
      have hdrop : (l.drop 10).length ≤ n := by
        simp only [List.length_drop]
        omega
      simp only [List.flatten_cons]
      rw [ih (l.drop 10) hdrop]
      exact List.take_append_drop 10 l

/-- Concatenating the chunks gives back the original list. -/
theorem chunks10_flatten {α : Type} (l : List α) : (chunks10 l).flatten = l :=
  chunks10_flatten_aux l.length l le_rfl

theorem chunks10_length_aux {α : Type} :
    ∀ (n : Nat) (l : List α), l.length ≤ n →
      (chunks10 l).length = (l.length + 9) / 10 := by
  intro n
  induction n with
  | zero =>
    intro l h
    have hl : l = [] := List.eq_nil_of_length_eq_zero (Nat.le_zero.mp h)
    rw [hl, chunks10_nil]
    simp
  | succ n ih =>
    intro l h
    by_cases hl : l = []
    · rw [hl, chunks10_nil]
      simp
    · rw [chunks10_cons l hl]
      have hpos : 0 < l.length := List.length_pos.mpr hl
      have hdrop : (l.drop 10).length ≤ n := by
        simp only [List.length_drop]
        omega
      rw [List.length_cons, ih (l.drop 10) hdrop]
      simp only [List.length_drop]
      omega

/-- Number of chunks is the ceiling of the length divided by 10. -/
theorem chunks10_length {α : Type} (l : List α) :
    (chunks10 l).length = (l.length + 9) / 10 :=
  chunks10_length_aux l.length l le_rfl

theorem chunks10_getD_length_aux {α : Type} :
    ∀ (n : Nat) (l : List α), l.length ≤ n →
      ∀ i, i + 1 < (chunks10 l).length → ((chunks10 l).getD i []).length = 10 := by
  intro n
  induction n with
  | zero =>
    intro l h i hi
    have hl : l = [] := List.eq_nil_of_length_eq_zero (Nat.le_zero.mp h)
    rw [hl, chunks10_nil] at hi
    exact absurd hi (by simp)
  | succ n ih =>
    intro l h i hi
    by_cases hl : l = []
    · rw [hl, chunks10_nil] at hi
      exact absurd hi (by simp)
    · rw [chunks10_cons l hl] at hi ⊢
      have hpos : 0 < l.length := List.length_pos.mpr hl
      have hdrop : (l.drop 10).length ≤ n := by
        simp only [List.length_drop]
        omega
      cases i with
      | zero =>
        have htail : chunks10 (l.drop 10) ≠ [] := by
          simp only [List.length_cons] at hi
          intro hc
          rw [hc] at hi
          exact absurd hi (by simp)
        have hdn : l.drop 10 ≠ [] := by
          intro hc
          exact htail ((chunks10_eq_nil_iff (l.drop 10)).mpr hc)
        have hlen : 10 < l.length := by
          by_contra hle
          push_neg at hle
          exact hdn (List.drop_eq_nil_of_le hle)
        simp only [List.getD_cons_zero, List.length_take]
        omega
      | succ j =>
        simp only [List.getD_cons_succ]
        apply ih (l.drop 10) hdrop j
        simp only [List.length_cons] at hi
        omega

/-- Every chunk except possibly the last has exactly 10 elements. -/
theorem chunks10_getD_length {α : Type} (l : List α) (i : Nat)
    (hi : i + 1 < (chunks10 l).length) : ((chunks10 l).getD i []).length = 10 :=
  chunks10_getD_length_aux l.length l le_rfl i hi

theorem chunks10_getLast_aux {α : Type} :
    ∀ (n : Nat) (l : List α) (c : List α), l.length ≤ n →
      (chunks10 l).getLast? = some c →
      c.length = if l.length % 10 = 0 then 10 else l.length % 10 := by
  intro n
  induction n with
  | zero =>
    intro l c h hc
    have hl : l = [] := List.eq_nil_of_length_eq_zero (Nat.le_zero.mp h)
    rw [hl, chunks10_nil] at hc
    exact absurd hc (by simp)
  | succ n ih =>
    intro l c h hc
    by_cases hl : l = []
    · rw [hl, chunks10_nil] at hc
      exact absurd hc (by simp)
    · rw [chunks10_cons l hl] at hc
      have hpos : 0 < l.length := List.length_pos.mpr hl
      have hdrop : (l.drop 10).length ≤ n := by
        simp only [List.length_drop]
        omega
      by_cases hd : l.drop 10 = []
      · have hle : l.length ≤ 10 := by
          by_contra hgt
          push_neg at hgt
          have : (l.drop 10).length = l.length - 10 := by simp [List.length_drop]
          rw [hd] at this
          simp at this
          omega
        rw [hd, chunks10_nil] at hc
        simp only [List.getLast?_singleton, Option.some.injEq] at hc
        rw [← hc]
        simp only [List.length_take]
        by_cases hm : l.length % 10 = 0
        · simp only [hm, if_true]
          omega
        · simp only [hm, if_false]
          omega
      · have htail : chunks10 (l.drop 10) ≠ [] := by
          intro hcnil
          exact hd ((chunks10_eq_nil_iff (l.drop 10)).mp hcnil)
        obtain ⟨b, bs, hb⟩ := List.exists_cons_of_ne_nil htail
        rw [hb] at hc
        rw [List.getLast?_cons_cons] at hc
        rw [← hb] at hc
        have := ih (l.drop 10) c hdrop hc
        have hlen : 10 < l.length := by
          by_contra hle
          push_neg at hle
          exact hd (List.drop_eq_nil_of_le hle)
        have hmod : (l.drop 10).length % 10 = l.length % 10 := by
          simp only [List.length_drop]
          omega
        rw [hmod] at this
        exact this

/-- The last chunk has `length % 10` elements, or 10 when that remainder is 0. -/
theorem chunks10_getLast {α : Type} (l : List α) (c : List α)
    (hc : (chunks10 l).getLast? = some c) :
    c.length = if l.length % 10 = 0 then 10 else l.length % 10 :=
  chunks10_getLast_aux l.length l c le_rfl hc

theorem dispatchLoop_eq_aux (failures : Nat → List SendFailure) :
    ∀ (n : Nat) (l : List Row) (i : Nat), l.length ≤ n →
      dispatchLoop failures i l = ((chunks10 l).map (fun c => c.map mkEntry), l.length) := by
  intro n
  induction n with
  | zero =>
    intro l i h
    have hl : l = [] := List.eq_nil_of_length_eq_zero (Nat.le_zero.mp h)
    rw [hl, dispatchLoop, chunks10_nil]
    simp
  | succ n ih =>
    intro l i h
    by_cases hl : l = []
    · rw [hl, dispatchLoop, chunks10_nil]
      simp
    · rw [dispatchLoop, chunks10_cons l hl]
      have hpos : 0 < l.length := List.length_pos.mpr hl
      have hdrop : (l.drop 10).length ≤ n := by
        simp only [List.length_drop]
        omega
      have htake : l.take 10 ≠ [] := by
        intro hc
        rcases List.take_eq_nil_iff.mp hc with h10 | hnil
        · exact absurd h10 (by omega)
        · exact hl hnil
      have hne : ((l.take 10).map mkEntry).isEmpty = false := by
        obtain ⟨a, as, ha⟩ := List.exists_cons_of_ne_nil htake
        rw [ha]
        rfl
      simp only [hl, if_neg, ite_false, hne, Bool.false_eq_true]
      rw [ih (l.drop 10) (i + 1) hdrop]
      simp only [List.map_cons, List.length_map, List.length_take, List.length_drop,
        Prod.mk.injEq]
      exact ⟨trivial, by omega⟩

/-- The publishing loop sends exactly the 10-row chunks of the dataframe (each
row mapped to its entry) and counts every row. -/
theorem dispatchLoop_eq (failures : Nat → List SendFailure) (l : List Row) (i : Nat) :
    dispatchLoop failures i l = ((chunks10 l).map (fun c => c.map mkEntry), l.length) :=
  dispatchLoop_eq_aux failures l.length l i le_rfl

/-- Closed form of `dispatch_dataframe`. -/
theorem dispatch_dataframe_eq (failures : Nat → List SendFailure) (df : List Row) :
    dispatch_dataframe failures df =
      ((chunks10 df).map (fun c => c.map mkEntry), df.length) := by
  rw [dispatch_dataframe]
  by_cases h : df = []
  · rw [h, chunks10_nil]
    simp
  · simp only [h, if_neg, ite_false]
    exact dispatchLoop_eq failures df 0


theorem runAux_none {α : Type} (t : Nat → Bool) (s : Nat) :
    ∀ (l : List α) (idx : Nat),
      (Continuation.runAux t s l idx).2 = none → (Continuation.runAux t s l idx).1 = l := by
  intro l
  induction l with
  | nil =>
    intro idx h
    rfl
  | cons f rest ih =>
    intro idx h
    by_cases ht : t idx
    · simp only [Continuation.runAux, ht, if_true] at h ⊢
      rw [ih (idx + 1) h]
    · simp [Continuation.runAux, ht] at h

theorem runAux_some {α : Type} (t : Nat → Bool) (s : Nat) :
    ∀ (l : List α) (idx : Nat) (k : Nat),
      (Continuation.runAux t s l idx).2 = some k →
      ∃ j, j < l.length ∧ k = s + idx + j ∧ (Continuation.runAux t s l idx).1 = l.take j := by
  intro l
  induction l with
  | nil =>
    intro idx k h
    exact absurd h (by simp [Continuation.runAux])
  | cons f rest ih =>
    intro idx k h
    by_cases ht : t idx
    · simp only [Continuation.runAux, ht, if_true] at h ⊢
      obtain ⟨j, hj, hk, hps⟩ := ih (idx + 1) k h
      refine ⟨j + 1, by simpa using hj, by omega, ?_⟩
      rw [List.take_succ_cons, hps]
    · simp [Continuation.runAux, ht] at h
      refine ⟨0, by simp, by omega, ?_⟩
      simp [Continuation.runAux, ht]

theorem runChain_eq {α : Type} (files : List α) :
    ∀ (ts : List (Nat → Bool)) (start : Nat),
      Continuation.completes files start ts = true →
      Continuation.runChain files start ts = files.drop start := by
  intro ts
  induction ts with
  | nil =>
    intro start h
    exact absurd h (by simp [Continuation.completes])
  | cons t ts ih =>
    intro start h
    rcases hr : Continuation.runInvocation files start t with ⟨ps, o⟩
    have hfst : (Continuation.runAux t start (List.drop start files) 0).1 = ps := by
      have h2 := congrArg Prod.fst hr
      rwa [Continuation.runInvocation] at h2
    have hsnd : (Continuation.runAux t start (List.drop start files) 0).2 = o := by
      have h2 := congrArg Prod.snd hr
      rwa [Continuation.runInvocation] at h2
    cases o with
    | none =>
      simp only [Continuation.runChain, hr]
      rw [← hfst]
      exact runAux_none t start (files.drop start) 0 hsnd
    | some nxt =>
      have hc : Continuation.completes files nxt ts = true := by
        simp only [Continuation.completes, hr] at h
        exact h
      simp only [Continuation.runChain, hr]
      obtain ⟨j, hj, hk, hps⟩ := runAux_some t start (files.drop start) 0 nxt hsnd
      rw [← hfst, hps, ih nxt hc]
      have hnxt : nxt = start + j := by omega
      rw [hnxt, ← List.drop_drop j start files]
      exact List.take_append_drop j (files.drop start)

/-- Claim C1: for every initial invocation of the dispatcher handler with a
sorted file list and any sequence of remaining-time readings whose hand-offs
eventually let the chain finish, the chain of invocations processes exactly
the full file list, each file once, in the list's (descending, newest-first)
order — because each hand-off's `start_index` is the index of the first file
whose processing has not begun. -/
theorem claim_C1 {α : Type} (files : List α) (sched : List (Nat → Bool))
    (r : α → α → Prop) (hsorted : files.Pairwise r)
    (hcomplete : Continuation.completes files 0 sched = true) :
    Continuation.runChain files 0 sched = files ∧
    (Continuation.runChain files 0 sched).Pairwise r := by
  have h := runChain_eq files sched 0 hcomplete
  simp only [List.drop_zero] at h
  refine ⟨h, ?_⟩
  rw [h]
  exact hsorted

/-- Witness for C1 at a concrete descending file list (labelled by month
number) with a schedule forcing two hand-offs (the second invocation hands
off before processing anything). -/
theorem claim_C1_witness :
    Continuation.completes [2405, 2404, 2403] 0
        [fun i => i < 1, fun _ => false, fun _ => true] = true ∧
    Continuation.runChain [2405, 2404, 2403] 0
        [fun i => i < 1, fun _ => false, fun _ => true] = [2405, 2404, 2403] :=
  ⟨by decide, (claim_C1 [2405, 2404, 2403]
    [fun i => i < 1, fun _ => false, fun _ => true]
    (fun a b => b < a) (by decide) (by decide)).1⟩

theorem getD_map_map {α β : Type} (f : α → β) :
    ∀ (L : List (List α)) (i : Nat),
      ((L.map (List.map f)).getD i []) = (L.getD i []).map f
  | [], i => by simp
  | x :: xs, 0 => rfl
  | x :: xs, i + 1 => getD_map_map f xs i

/-- Claim C6: on an input frame of N valid records, `dispatch_dataframe`
makes `ceil(N/10)` `send_message_batch` calls, each of exactly 10 entries
except possibly the last (N mod 10, or 10 when the remainder is 0), the
entries across calls concatenate to the input records in order, the returned
count is N, and an empty input makes no calls and is not an error. -/
theorem claim_C6 (failures : Nat → List SendFailure) (df : List Row) :
    (dispatch_dataframe failures df).2 = df.length ∧
    (dispatch_dataframe failures df).1.length = (df.length + 9) / 10 ∧
    (dispatch_dataframe failures df).1.flatten = df.map mkEntry ∧
    (∀ i, i + 1 < (dispatch_dataframe failures df).1.length →
      ((dispatch_dataframe failures df).1.getD i []).length = 10) ∧
    (∀ c, (dispatch_dataframe failures df).1.getLast? = some c →
      c.length = if df.length % 10 = 0 then 10 else df.length % 10) ∧
    (df = [] → (dispatch_dataframe failures df).1 = []) := by
  rw [dispatch_dataframe_eq]
  refine ⟨rfl, by simp [chunks10_length], ?_, ?_, ?_, ?_⟩
  · show ((chunks10 df).map (List.map mkEntry)).flatten = List.map mkEntry df
    rw [← List.map_flatten, chunks10_flatten]
  · intro i hi
    simp only [List.length_map] at hi
    show (((chunks10 df).map (List.map mkEntry)).getD i []).length = 10
    rw [getD_map_map, List.length_map]
    exact chunks10_getD_length df i hi
  · intro c hc
    have hc2 : ((chunks10 df).map (List.map mkEntry)).getLast? = some c := hc
    rw [List.getLast?_map] at hc2
    rcases hm : (chunks10 df).getLast? with _ | c0
    · rw [hm] at hc2
      exact Option.noConfusion hc2
    · rw [hm] at hc2
      injection hc2 with hc3
      rw [← hc3, List.length_map]
      exact chunks10_getLast df c0 hm
  · intro h
    rw [h, chunks10_nil]
    rfl

/-- Witness for C6 at a concrete 13-row frame: two calls, of 10 and 3
entries, and a count of 13. -/
theorem claim_C6_witness :
    (dispatch_dataframe (fun _ => []) rows13).2 = 13 ∧
    (dispatch_dataframe (fun _ => []) rows13).1.length = 2 ∧
    ((dispatch_dataframe (fun _ => []) rows13).1.getD 0 []).length = 10 ∧
    ((dispatch_dataframe (fun _ => []) rows13).1.getD 1 []).length = 3 := by
  have h := claim_C6 (fun _ => []) rows13
  have hn : rows13.length = 13 := by decide
  have hlen : (dispatch_dataframe (fun _ => []) rows13).1.length = 2 := by
    rw [h.2.1, hn]
  refine ⟨by rw [h.1, hn], hlen, ?_, ?_⟩
  · exact h.2.2.2.1 0 (by rw [hlen]; decide)
  · have hg : (dispatch_dataframe (fun _ => []) rows13).1.getLast? =
        (dispatch_dataframe (fun _ => []) rows13).1[1]? := by
      rw [List.getLast?_eq_getElem?, hlen]
    rcases he : (dispatch_dataframe (fun _ => []) rows13).1[1]? with _ | c
    · have h2 := List.getElem?_eq_none_iff.mp he
      rw [hlen] at h2
      omega
    · have hc := h.2.2.2.2.1 c (by rw [hg, he])
      rw [hn] at hc
      rw [List.getD_eq_getElem?_getD, he, Option.getD_some, hc]
      decide

/-- Counterexample to C5: with an input of one row and a queue response
reporting a failed entry, `dispatch_dataframe` behaves exactly as if the
response had reported no failure (the response is never inspected, so no
failed entry is logged with its id and reason), and the failed entry is
still counted in the returned dispatched-jobs count. -/
theorem claim_C5_counterexample :
    (fun _ : Nat => [SendFailure.mk "a" "boom"]) 0 ≠ [] ∧
    dispatch_dataframe (fun _ => [SendFailure.mk "a" "boom"]) [⟨.str "a", .str "t"⟩] =
      dispatch_dataframe (fun _ => []) [⟨.str "a", .str "t"⟩] ∧
    (dispatch_dataframe (fun _ => [SendFailure.mk "a" "boom"]) [⟨.str "a", .str "t"⟩]).2 = 1 := by
  refine ⟨by decide, ?_, ?_⟩
  · rw [dispatch_dataframe_eq, dispatch_dataframe_eq]
  · rw [dispatch_dataframe_eq]
    rfl

/-- Claim C5 as amended: `dispatch_dataframe` ignores the
`send_message_batch` responses entirely — entries the queue reports as
failed are not logged and are included in the returned dispatched count —
and a partial publish failure does not abort dispatch of the remaining
batches: the output is independent of the reported failures, every row is
counted, and all `ceil(N/10)` batch calls are made regardless. -/
theorem claim_C5_amended (f g : Nat → List SendFailure) (df : List Row) :
    dispatch_dataframe f df = dispatch_dataframe g df ∧
    (dispatch_dataframe f df).2 = df.length ∧
    (dispatch_dataframe f df).1.length = (df.length + 9) / 10 := by
  rw [dispatch_dataframe_eq, dispatch_dataframe_eq]
  exact ⟨rfl, rfl, by simp [chunks10_length]⟩

/-- Claim C9: in reverse-dispatch mode the collected messages are reversed
before chunking into sub-batch calls, so the send order across calls is
exactly the reverse of the production order — for one message per batch,
batches produced as B0, ..., Bn are sent as Bn, ..., B0. -/
theorem claim_C9 {α : Type} (msgs : List α) :
    (reverseDispatch msgs).flatten = msgs.reverse := by
  rw [reverseDispatch, chunks10_flatten]

theorem mem_dispatch_calls (failures : Nat → List SendFailure) (rows : List Row)
    {call : List Entry} {e : Entry}
    (hc : call ∈ (dispatch_dataframe failures rows).1) (he : e ∈ call) :
    ∃ r, r ∈ rows ∧ e = mkEntry r := by
  have h1 : (dispatch_dataframe failures rows).1 = (chunks10 rows).map (List.map mkEntry) := by
    rw [dispatch_dataframe_eq]
  rw [h1] at hc
  have hm : e ∈ ((chunks10 rows).map (List.map mkEntry)).flatten :=
    List.mem_flatten.mpr ⟨call, hc, he⟩
  rw [← List.map_flatten, chunks10_flatten] at hm
  obtain ⟨r, hr, hee⟩ := List.mem_map.mp hm
  exact ⟨r, hr, hee.symm⟩

/-- Claim C7: a record missing its id or its title is never published by the
dispatcher (every published entry comes from a row that survived the
`dropna` filter), and in the worker such a record is logged as a permanent
`MalformedMessage` error and skipped — contributing no API call, no raise,
and letting processing continue — so it is never retried. -/
theorem claim_C7 (failures : Nat → List SendFailure) (hasIdCol hasTitleCol : Bool)
    (rows : List Row) (rec : Worker.RecordEnv) (obj : JObj)
    (rest : List Worker.RecordEnv) :
    (∀ call ∈ (processFile failures hasIdCol hasTitleCol rows).1, ∀ e ∈ call,
      ∃ r, r ∈ rows ∧ validRow r = true ∧ e = mkEntry r) ∧
    (rec.body = some obj → Worker.workerAccepts obj = false →
      Worker.handler (rec :: rest) =
        ⟨Worker.S3Write.permanentError
            (Worker.permanentKey (Worker.pyStrOpt (lookupKey obj "paper_id")))
            "MalformedMessage" :: (Worker.handler rest).writes,
          (Worker.handler rest).raised, (Worker.handler rest).apiCalls⟩) := by
  constructor
  · intro call hc e he
    rw [processFile] at hc
    by_cases hcols : (hasIdCol && hasTitleCol) = true
    · rw [if_pos hcols] at hc
      obtain ⟨r, hr, hee⟩ := mem_dispatch_calls failures (rows.filter validRow) hc he
      rw [List.mem_filter] at hr
      exact ⟨r, hr.1, hr.2, hee⟩
    · rw [if_neg hcols] at hc
      exact absurd hc (by simp)
  · intro hbody haccept
    simp [Worker.handler, hbody, haccept]

/-- Witness for C7: the valid row of a two-row frame is the one dispatched,
and a worker record whose body lacks `paper_id` is logged as a permanent
`MalformedMessage` error with no API call and no raise. -/
theorem claim_C7_witness :
    validRow (Row.mk (JVal.str "a1") (JVal.str "T")) = true ∧
    Worker.handler [⟨some [("title", JVal.str "T")],
        Worker.CallResult.exn, Worker.CallResult.exn⟩] =
      ⟨[Worker.S3Write.permanentError (Worker.permanentKey "None") "MalformedMessage"],
        false, 0⟩ := by
  constructor
  · have hfilter : List.filter validRow
        [Row.mk (JVal.str "a1") (JVal.str "T"), Row.mk JVal.null (JVal.str "T")] =
        [Row.mk (JVal.str "a1") (JVal.str "T")] := by decide
    have hcalls : (processFile (fun _ => []) true true
        [Row.mk (JVal.str "a1") (JVal.str "T"), Row.mk JVal.null (JVal.str "T")]).1 =
        [[mkEntry (Row.mk (JVal.str "a1") (JVal.str "T"))]] := by
      show (dispatch_dataframe (fun _ => []) (List.filter validRow
        [Row.mk (JVal.str "a1") (JVal.str "T"), Row.mk JVal.null (JVal.str "T")])).1 = _
      rw [hfilter, dispatch_dataframe_eq]
      rw [chunks10_cons _ (by decide)]
      simp [chunks10_nil]
    have h1 := (claim_C7 (fun _ => []) true true
        [Row.mk (JVal.str "a1") (JVal.str "T"), Row.mk JVal.null (JVal.str "T")]
        ⟨none, Worker.CallResult.exn, Worker.CallResult.exn⟩ [] []).1
      [mkEntry (Row.mk (JVal.str "a1") (JVal.str "T"))]
      (by rw [hcalls]; exact List.mem_singleton.mpr rfl)
      (mkEntry (Row.mk (JVal.str "a1") (JVal.str "T")))
      (List.mem_singleton.mpr rfl)
    obtain ⟨r, hr, hv, hee⟩ := h1
    simp only [List.mem_cons, List.not_mem_nil, or_false] at hr
    rcases hr with rfl | rfl
    · exact hv
    · exact absurd hee (by decide)
  · have h2 := (claim_C7 (fun _ => []) true true []
        ⟨some [("title", JVal.str "T")], Worker.CallResult.exn, Worker.CallResult.exn⟩
        [("title", JVal.str "T")] []).2 rfl (by decide)
    exact h2.trans (by decide)

/-- Claim C10: every message body published by the dispatcher — in normal
mode and in test mode — is the two-key object
`{'paper_id': row id, 'title': str(title)}`, and the worker's parser accepts
exactly this shape when both values are truthy. -/
theorem claim_C10 (failures : Nat → List SendFailure) (rows : List Row) (rec : JObj) :
    (∀ call ∈ (dispatch_dataframe failures rows).1, ∀ e ∈ call,
      ∃ r, r ∈ rows ∧ e.body = [("paper_id", r.id), ("title", JVal.str (pyStr r.title))]) ∧
    (∀ call ∈ (run_test_mode failures rec).1, ∀ e ∈ call,
      ∃ i t, lookupKey rec "id" = some i ∧ lookupKey rec "title" = some t ∧
        e.body = [("paper_id", i), ("title", JVal.str (pyStr t))]) ∧
    (∀ (v : JVal) (s : String),
      Worker.workerAccepts [("paper_id", v), ("title", JVal.str s)] =
        (truthy v && truthy (JVal.str s))) := by
  refine ⟨?_, ?_, ?_⟩
  · intro call hc e he
    obtain ⟨r, hr, rfl⟩ := mem_dispatch_calls failures rows hc he
    exact ⟨r, hr, rfl⟩
  · intro call hc e he
    rcases hid : lookupKey rec "id" with _ | i
    · simp only [run_test_mode, hid] at hc
      exact absurd hc (by simp)
    · rcases htit : lookupKey rec "title" with _ | t
      · simp only [run_test_mode, hid, htit] at hc
        exact absurd hc (by simp)
      · simp only [run_test_mode, hid, htit] at hc
        obtain ⟨r, hr, rfl⟩ := mem_dispatch_calls failures [⟨i, t⟩] hc he
        rw [List.mem_singleton] at hr
        subst hr
        exact ⟨i, t, rfl, rfl, rfl⟩
  · intro v s
    rfl

/-- Witness for C10: the body built for a concrete row is exactly the
two-key object, and the worker's parser accepts it. -/
theorem claim_C10_witness :
    (mkEntry (Row.mk (JVal.str "a1") (JVal.str "T"))).body =
      [("paper_id", JVal.str "a1"), ("title", JVal.str "T")] ∧
    Worker.workerAccepts [("paper_id", JVal.str "a1"), ("title", JVal.str "T")] = true := by
  constructor
  · have hcalls : (dispatch_dataframe (fun _ => [])
        [Row.mk (JVal.str "a1") (JVal.str "T")]).1 =
        [[mkEntry (Row.mk (JVal.str "a1") (JVal.str "T"))]] := by
      rw [dispatch_dataframe_eq]
      rw [chunks10_cons _ (by decide)]
      simp [chunks10_nil]
    obtain ⟨r, hr, hb⟩ := (claim_C10 (fun _ => [])
        [Row.mk (JVal.str "a1") (JVal.str "T")] []).1
      [mkEntry (Row.mk (JVal.str "a1") (JVal.str "T"))]
      (by rw [hcalls]; exact List.mem_singleton.mpr rfl)
      (mkEntry (Row.mk (JVal.str "a1") (JVal.str "T")))
      (List.mem_singleton.mpr rfl)
    rw [List.mem_singleton] at hr
    subst hr
    exact hb
  · have h3 := (claim_C10 (fun _ => []) [] []).2.2 (JVal.str "a1") "T"
    exact h3.trans (by decide)

theorem process_paper_shape (pid tit : JVal) (sr : Worker.CallResult Worker.WorksResponse)
    (ar : Worker.CallResult (List Worker.AuthorRecord)) :
    ∃ w, (Worker.process_paper pid tit sr ar).writes = [w] ∧
      1 ≤ (Worker.process_paper pid tit sr ar).apiCalls := by
  cases sr with
  | exn => exact ⟨_, rfl, by norm_num [Worker.process_paper]⟩
  | httpError s =>
    simp only [Worker.process_paper]
    split
    · exact ⟨_, rfl, by norm_num⟩
    · split
      · exact ⟨_, rfl, by norm_num⟩
      · exact ⟨_, rfl, by norm_num⟩
  | ok wd =>
    simp only [Worker.process_paper]
    split
    · exact ⟨_, rfl, by norm_num⟩
    · split
      · exact ⟨_, rfl, by norm_num⟩
      · cases ar with
        | exn => exact ⟨_, rfl, by norm_num⟩
        | ok recs => exact ⟨_, rfl, by norm_num⟩
        | httpError s =>
          simp only
          split
          · exact ⟨_, rfl, by norm_num⟩
          · split
            · exact ⟨_, rfl, by norm_num⟩
            · exact ⟨_, rfl, by norm_num⟩

theorem sinkPut_sinkPut (sink : Worker.Sink) (w : Worker.S3Write) :
    Worker.sinkPut (Worker.sinkPut sink w) w = Worker.sinkPut sink w := by
  simp [Worker.sinkPut, List.filter_append, List.filter_filter]

/-- Counterexample to C3: the worker has no Success pre-check.  With a
Success object for id `a1` already in the Result Sink, reprocessing the same
record still issues an external API call, and (when the API now reports a
different citation count) the stored Success object changes. -/
theorem claim_C3_counterexample :
    Worker.sinkGet
        [(Worker.successKey (JVal.str "a1"),
          Worker.S3Write.success (Worker.successKey (JVal.str "a1"))
            ⟨JVal.str "a1", JVal.str "T", some "T", some 5, []⟩)]
        (Worker.successKey (JVal.str "a1")) =
      some (Worker.S3Write.success (Worker.successKey (JVal.str "a1"))
        ⟨JVal.str "a1", JVal.str "T", some "T", some 5, []⟩) ∧
    (Worker.process_paper (JVal.str "a1") (JVal.str "T")
        (Worker.CallResult.ok ⟨[⟨some "T", some 7, []⟩]⟩)
        (Worker.CallResult.ok [])).apiCalls ≠ 0 ∧
    Worker.sinkGet
        (Worker.sinkApply
          [(Worker.successKey (JVal.str "a1"),
            Worker.S3Write.success (Worker.successKey (JVal.str "a1"))
              ⟨JVal.str "a1", JVal.str "T", some "T", some 5, []⟩)]
          (Worker.process_paper (JVal.str "a1") (JVal.str "T")
            (Worker.CallResult.ok ⟨[⟨some "T", some 7, []⟩]⟩)
            (Worker.CallResult.ok [])).writes)
        (Worker.successKey (JVal.str "a1")) ≠
      some (Worker.S3Write.success (Worker.successKey (JVal.str "a1"))
        ⟨JVal.str "a1", JVal.str "T", some "T", some 5, []⟩) := by
  refine ⟨by decide, by decide, by decide⟩

/-- Claim C3 as amended: the worker never probes the Result Sink before
processing — reprocessing an already-succeeded record issues the external
API call(s) again — but every processing attempt writes a single object
whose key depends only on the record id and outcome, so reapplying the same
attempt's writes leaves the Result Sink unchanged (idempotence by key
derivation, not by short-circuit). -/
theorem claim_C3_amended (pid tit : JVal) (sr : Worker.CallResult Worker.WorksResponse)
    (ar : Worker.CallResult (List Worker.AuthorRecord)) (sink : Worker.Sink) :
    1 ≤ (Worker.process_paper pid tit sr ar).apiCalls ∧
    Worker.sinkApply
        (Worker.sinkApply sink (Worker.process_paper pid tit sr ar).writes)
        (Worker.process_paper pid tit sr ar).writes =
      Worker.sinkApply sink (Worker.process_paper pid tit sr ar).writes := by
  obtain ⟨w, hw, hcalls⟩ := process_paper_shape pid tit sr ar
  refine ⟨hcalls, ?_⟩
  rw [hw]
  exact sinkPut_sinkPut sink w

/-- Counterexample to C4: in a two-record delivery whose first record hits a
transient HTTP 500, the exception escapes the loop and the second record is
never processed — even though processing it alone would have written its
NotFound outcome. -/
theorem claim_C4_counterexample :
    Worker.handler
        [⟨some [("paper_id", JVal.str "p1"), ("title", JVal.str "T1")],
          Worker.CallResult.httpError 500, Worker.CallResult.exn⟩,
         ⟨some [("paper_id", JVal.str "p2"), ("title", JVal.str "T2")],
          Worker.CallResult.ok ⟨[]⟩, Worker.CallResult.ok []⟩] =
      ⟨[Worker.S3Write.retriableError (Worker.retriableKey (JVal.str "p1"))], true, 1⟩ ∧
    Worker.handler
        [⟨some [("paper_id", JVal.str "p2"), ("title", JVal.str "T2")],
          Worker.CallResult.ok ⟨[]⟩, Worker.CallResult.ok []⟩] =
      ⟨[Worker.S3Write.notFound (Worker.notFoundKey (JVal.str "p2"))
          (JVal.str "p2") (JVal.str "T2")
          "No results returned from OpenAlex for this title."], false, 1⟩ := by
  refine ⟨by decide, by decide⟩

/-- Claim C4 as amended: a failure local to one record aborts its siblings
exactly when it is classified transient.  A record whose processing does not
raise (malformed message, permanent 4xx, not-found, or success) contributes
its writes and API calls and the rest of the delivery is processed
unchanged; a record whose processing raises (429, ≥500, or a non-HTTP
exception) ends the delivery there and the remaining records are not
processed. -/
theorem claim_C4_amended (r : Worker.RecordEnv) (rest : List Worker.RecordEnv) :
    ((Worker.handler [r]).raised = false →
      Worker.handler (r :: rest) =
        ⟨(Worker.handler [r]).writes ++ (Worker.handler rest).writes,
          (Worker.handler rest).raised,
          (Worker.handler [r]).apiCalls + (Worker.handler rest).apiCalls⟩) ∧
    ((Worker.handler [r]).raised = true → Worker.handler (r :: rest) = Worker.handler [r]) := by
  rcases r with ⟨body, search, authorDetails⟩
  cases body with
  | none =>
    constructor
    · intro h
      simp [Worker.handler]
    · intro h
      simp [Worker.handler] at h
  | some obj =>
    by_cases hacc : Worker.workerAccepts obj = true
    · by_cases hraised : (Worker.process_paper ((lookupKey obj "paper_id").getD .null)
          ((lookupKey obj "title").getD .null) search authorDetails).raised = true
      · constructor
        · intro h
          exfalso
          simp [Worker.handler, hacc, hraised] at h
        · intro h
          simp [Worker.handler, hacc, hraised]
      · constructor
        · intro h
          simp [Worker.handler, hacc, hraised]
        · intro h
          exfalso
          simp [Worker.handler, hacc, hraised] at h
    · constructor
      · intro h
        simp [Worker.handler, hacc]
      · intro h
        simp [Worker.handler, hacc] at h

/-- Witness for C4 (amended): a non-raising first record lets its sibling be
processed; a transient first record makes the delivery's result exactly its
own. -/
theorem claim_C4_witness :
    Worker.handler
        [⟨some [("paper_id", JVal.str "p2"), ("title", JVal.str "T2")],
          Worker.CallResult.ok ⟨[]⟩, Worker.CallResult.ok []⟩,
         ⟨some [("paper_id", JVal.str "p3"), ("title", JVal.str "T3")],
          Worker.CallResult.ok ⟨[]⟩, Worker.CallResult.ok []⟩] =
      ⟨[Worker.S3Write.notFound (Worker.notFoundKey (JVal.str "p2"))
          (JVal.str "p2") (JVal.str "T2")
          "No results returned from OpenAlex for this title.",
        Worker.S3Write.notFound (Worker.notFoundKey (JVal.str "p3"))
          (JVal.str "p3") (JVal.str "T3")
          "No results returned from OpenAlex for this title."], false, 2⟩ ∧
    Worker.handler
        [⟨some [("paper_id", JVal.str "p1"), ("title", JVal.str "T1")],
          Worker.CallResult.httpError 503, Worker.CallResult.exn⟩,
         ⟨some [("paper_id", JVal.str "p2"), ("title", JVal.str "T2")],
          Worker.CallResult.ok ⟨[]⟩, Worker.CallResult.ok []⟩] =
      Worker.handler
        [⟨some [("paper_id", JVal.str "p1"), ("title", JVal.str "T1")],
          Worker.CallResult.httpError 503, Worker.CallResult.exn⟩] := by
  constructor
  · have h := (claim_C4_amended
      ⟨some [("paper_id", JVal.str "p2"), ("title", JVal.str "T2")],
        Worker.CallResult.ok ⟨[]⟩, Worker.CallResult.ok []⟩
      [⟨some [("paper_id", JVal.str "p3"), ("title", JVal.str "T3")],
        Worker.CallResult.ok ⟨[]⟩, Worker.CallResult.ok []⟩]).1 (by decide)
    exact h.trans (by decide)
  · exact (claim_C4_amended
      ⟨some [("paper_id", JVal.str "p1"), ("title", JVal.str "T1")],
        Worker.CallResult.httpError 503, Worker.CallResult.exn⟩
      [⟨some [("paper_id", JVal.str "p2"), ("title", JVal.str "T2")],
        Worker.CallResult.ok ⟨[]⟩, Worker.CallResult.ok []⟩]).2 (by decide)

theorem buildAuthorMap_aux :
    ∀ (recs : List Worker.AuthorRecord) (m : String → Option Worker.AuthorRecord) (k : String),
      (recs.foldl (fun m a => fun k2 => if k2 = Worker.lastSeg a.id then some a else m k2) m) k =
        match recs.reverse.find? (fun d => Worker.lastSeg d.id = k) with
        | some d => some d
        | none => m k := by
  intro recs
  induction recs with
  | nil =>
    intro m k
    rfl
  | cons a recs ih =>
    intro m k
    rw [List.foldl_cons, ih, List.reverse_cons, List.find?_append]
    rcases hf : recs.reverse.find? (fun d => Worker.lastSeg d.id = k) with _ | d
    · simp only [hf, Option.none_or]
      by_cases hp : Worker.lastSeg a.id = k
      · simp [List.find?_cons, hp]
      · rw [if_neg (fun hk => hp hk.symm)]
        simp [List.find?_cons, hp]
    · simp [hf]

theorem buildAuthorMap_eq (recs : List Worker.AuthorRecord) (k : String) :
    Worker.buildAuthorMap recs k =
      recs.reverse.find? (fun d => Worker.lastSeg d.id = k) := by
  rw [Worker.buildAuthorMap, buildAuthorMap_aux]
  rcases hf : recs.reverse.find? (fun d => Worker.lastSeg d.id = k) with _ | d <;>
    simp [hf]

theorem authorInfoOf_eq_spec (w : Worker.Work) (recs : List Worker.AuthorRecord) :
    Worker.authorInfoOf w recs = Worker.specAuthors w recs := by
  rw [Worker.authorInfoOf, Worker.specAuthors]
  generalize w.authorships = l
  induction l with
  | nil => rfl
  | cons a l ih =>
    rw [List.filterMap_cons, List.filter_cons]
    rcases hid : Worker.authIdOf a with _ | aid
    · simp only [hid, Option.isSome_none, Bool.false_eq_true, if_false]
      exact ih
    · simp only [hid, Option.isSome_some, if_true, List.map_cons]
      rw [ih]
      congr 1
      rw [buildAuthorMap_eq]
      rfl

theorem authorInfoOf_nil_of_ids_nil (w : Worker.Work) (recs : List Worker.AuthorRecord)
    (h : Worker.author_ids_of w = []) : Worker.authorInfoOf w recs = [] := by
  rw [Worker.author_ids_of] at h
  rw [Worker.authorInfoOf]
  rw [List.filterMap_eq_nil_iff] at h ⊢
  intro a ha
  rw [h a ha]

/-- Claim C8: on the success path the worker writes one Success object whose
`authors` list has one entry per authorship of the matched work that carries
an author identifier, in the original authorship order, joined back to the
author-details response by author identifier (not by response order), with a
null h-index — not a record failure — for an author whose details are absent
from the response. -/
theorem claim_C8 (pid tit : JVal) (wd : Worker.WorksResponse) (w : Worker.Work)
    (t : List Worker.Work) (recs : List Worker.AuthorRecord)
    (hw : wd.results = w :: t) :
    Worker.process_paper pid tit (.ok wd) (.ok recs) =
      ⟨[Worker.S3Write.success (Worker.successKey pid)
          ⟨pid, tit, w.display_name, w.cited_by_count, Worker.authorInfoOf w recs⟩],
        false, if Worker.author_ids_of w = [] then 1 else 2⟩ ∧
    Worker.authorInfoOf w recs = Worker.specAuthors w recs := by
  refine ⟨?_, authorInfoOf_eq_spec w recs⟩
  simp only [Worker.process_paper, hw]
  by_cases hids : Worker.author_ids_of w = []
  · rw [if_pos hids, if_pos hids, authorInfoOf_nil_of_ids_nil w recs hids]
  · rw [if_neg hids, if_neg hids]

/-- Witness for C8: a work with three identified authorships, the details
response arriving in a different order and missing the third author, yields
authors in the original order with h-indices 50, 30 and null. -/
theorem claim_C8_witness :
    Worker.process_paper (JVal.str "a1") (JVal.str "Attention Is All You Need")
        (Worker.CallResult.ok ⟨[⟨some "Attention Is All You Need", some 100,
          [⟨some ⟨some "https://openalex.org/A1", some "X"⟩⟩,
           ⟨some ⟨some "https://openalex.org/A2", some "Y"⟩⟩,
           ⟨some ⟨some "A3", some "Z"⟩⟩]⟩]⟩)
        (Worker.CallResult.ok
          [⟨"https://openalex.org/A2", some 30⟩, ⟨"https://openalex.org/A1", some 50⟩]) =
      ⟨[Worker.S3Write.success (Worker.successKey (JVal.str "a1"))
          ⟨JVal.str "a1", JVal.str "Attention Is All You Need",
            some "Attention Is All You Need", some 100,
            [⟨some "X", some 50⟩, ⟨some "Y", some 30⟩, ⟨some "Z", none⟩]⟩],
        false, 2⟩ := by
  have h := (claim_C8 (JVal.str "a1") (JVal.str "Attention Is All You Need")
    ⟨[⟨some "Attention Is All You Need", some 100,
      [⟨some ⟨some "https://openalex.org/A1", some "X"⟩⟩,
       ⟨some ⟨some "https://openalex.org/A2", some "Y"⟩⟩,
       ⟨some ⟨some "A3", some "Z"⟩⟩]⟩]⟩
    ⟨some "Attention Is All You Need", some 100,
      [⟨some ⟨some "https://openalex.org/A1", some "X"⟩⟩,
       ⟨some ⟨some "https://openalex.org/A2", some "Y"⟩⟩,
       ⟨some ⟨some "A3", some "Z"⟩⟩]⟩ []
    [⟨"https://openalex.org/A2", some 30⟩, ⟨"https://openalex.org/A1", some 50⟩] rfl).1
  exact h.trans (by decide)

theorem process_paper_raised_eq (pid tit : JVal) (sr : Worker.CallResult Worker.WorksResponse)
    (ar : Worker.CallResult (List Worker.AuthorRecord)) :
    (Worker.process_paper pid tit sr ar).raised =
      (Worker.transientCall sr ||
        (Worker.authorsConsulted sr && Worker.transientCall ar)) := by
  cases sr with
  | exn => rfl
  | httpError s =>
    simp only [Worker.process_paper, Worker.transientCall, Worker.authorsConsulted]
    by_cases hts : Worker.isTransientStatus s = true
    · simp [hts]
    · have hts2 := Bool.not_eq_true _ ▸ hts
      by_cases h404 : (s == 404) = true
      · simp [hts2, h404]
      · have h404b := Bool.not_eq_true _ ▸ h404
        simp [hts2, h404b]
  | ok wd =>
    simp only [Worker.process_paper, Worker.transientCall, Worker.authorsConsulted]
    rcases hres : wd.results with _ | ⟨w, t⟩
    · simp
    · simp only
      by_cases hids : Worker.author_ids_of w = []
      · rw [if_pos hids]
        simp [hids]
      · rw [if_neg hids]
        have hie : (Worker.author_ids_of w).isEmpty = false := by
          rcases hl : Worker.author_ids_of w with _ | ⟨x, xs⟩
          · exact absurd hl hids
          · rfl
        cases ar with
        | exn => simp [hie]
        | ok recs => simp [hie]
        | httpError s =>
          by_cases hts : Worker.isTransientStatus s = true
          · simp [hie, hts]
          · have hts2 := Bool.not_eq_true _ ▸ hts
            by_cases h404 : (s == 404) = true
            · simp [hie, hts2, h404]
            · have h404b := Bool.not_eq_true _ ▸ h404
              simp [hie, hts2, h404b]

theorem authorsConsulted_iff (sr : Worker.CallResult Worker.WorksResponse) :
    Worker.authorsConsulted sr = true ↔
      ∃ wd w t, sr = .ok wd ∧ wd.results = w :: t ∧ Worker.author_ids_of w ≠ [] := by
  cases sr with
  | exn =>
    simp [Worker.authorsConsulted]
  | httpError s =>
    simp [Worker.authorsConsulted]
  | ok wd =>
    simp only [Worker.authorsConsulted]
    rcases hres : wd.results with _ | ⟨w, t⟩
    · constructor
      · intro h
        exact absurd h (by simp)
      · rintro ⟨wd2, w2, t2, heq, hres2, hne⟩
        injection heq with heq2
        subst heq2
        rw [hres] at hres2
        exact absurd hres2 (by simp)
    · constructor
      · intro h
        refine ⟨wd, w, t, rfl, hres, ?_⟩
        intro hnil
        have h2 : (!(Worker.author_ids_of w).isEmpty) = true := h
        rw [hnil] at h2
        simp at h2
      · rintro ⟨wd2, w2, t2, heq, hres2, hne⟩
        rcases hl : Worker.author_ids_of w with _ | ⟨x, xs⟩
        · injection heq with heq2
          subst heq2
          rw [hres] at hres2
          injection hres2 with hw ht
          subst hw
          exact absurd hl hne
        · simp [hl]

/-- Claim C2: the worker's per-record outcome classification.  A 429/5xx
status or a non-HTTP exception on the search (or on the author fetch, when
it happens) writes `error/<id>_retriable.json` and re-raises; any other 4xx
except 404 writes `error/<id>_permanent_error.json` and returns normally; a
404 or an empty search result writes `not_found/<id>.json` and returns
normally.  An exception propagates out of per-record processing if and only
if the outcome is classified transient. -/
theorem claim_C2 (pid tit : JVal) (sr : Worker.CallResult Worker.WorksResponse)
    (ar : Worker.CallResult (List Worker.AuthorRecord)) :
    ((Worker.process_paper pid tit sr ar).raised = true ↔
      (Worker.transientCall sr = true ∨
        ∃ wd w t, sr = .ok wd ∧ wd.results = w :: t ∧
          Worker.author_ids_of w ≠ [] ∧ Worker.transientCall ar = true)) ∧
    ((Worker.process_paper pid tit sr ar).raised = true →
      (Worker.process_paper pid tit sr ar).writes =
        [Worker.S3Write.retriableError (Worker.retriableKey pid)]) ∧
    (∀ s, sr = .httpError s → 400 ≤ s → s < 500 → s ≠ 429 → s ≠ 404 →
      (Worker.process_paper pid tit sr ar).writes =
        [Worker.S3Write.permanentError (Worker.permanentKey (pyStr pid))
          ("HTTPError_" ++ toString s)] ∧
      (Worker.process_paper pid tit sr ar).raised = false) ∧
    (∀ wd w t s, sr = .ok wd → wd.results = w :: t → Worker.author_ids_of w ≠ [] →
      ar = .httpError s → 400 ≤ s → s < 500 → s ≠ 429 → s ≠ 404 →
      (Worker.process_paper pid tit sr ar).writes =
        [Worker.S3Write.permanentError (Worker.permanentKey (pyStr pid))
          ("HTTPError_" ++ toString s)] ∧
      (Worker.process_paper pid tit sr ar).raised = false) ∧
    (sr = .httpError 404 →
      (Worker.process_paper pid tit sr ar).writes =
        [Worker.S3Write.notFound (Worker.notFoundKey pid) pid tit
          "OpenAlex API returned HTTP 404."] ∧
      (Worker.process_paper pid tit sr ar).raised = false) ∧
    (∀ wd, sr = .ok wd → wd.results = [] →
      (Worker.process_paper pid tit sr ar).writes =
        [Worker.S3Write.notFound (Worker.notFoundKey pid) pid tit
          "No results returned from OpenAlex for this title."] ∧
      (Worker.process_paper pid tit sr ar).raised = false) ∧
    (∀ wd w t, sr = .ok wd → wd.results = w :: t → Worker.author_ids_of w ≠ [] →
      ar = .httpError 404 →
      (Worker.process_paper pid tit sr ar).writes =
        [Worker.S3Write.notFound (Worker.notFoundKey pid) pid tit
          "OpenAlex API returned HTTP 404."] ∧
      (Worker.process_paper pid tit sr ar).raised = false) := by
  refine ⟨?_, ?_, ?_, ?_, ?_, ?_, ?_⟩
  · rw [process_paper_raised_eq]
    constructor
    · intro h
      rcases (Bool.or_eq_true _ _).mp h with h1 | h1
      · exact Or.inl h1
      · rcases (Bool.and_eq_true _ _).mp h1 with ⟨hc, ht⟩
        obtain ⟨wd, w, t, e1, e2, e3⟩ := (authorsConsulted_iff sr).mp hc
        exact Or.inr ⟨wd, w, t, e1, e2, e3, ht⟩
    · intro h
      rcases h with h1 | ⟨wd, w, t, e1, e2, e3, e4⟩
      · rw [h1]
        rfl
      · rw [(authorsConsulted_iff sr).mpr ⟨wd, w, t, e1, e2, e3⟩, e4]
        simp
  · intro h
    cases sr with
    | exn => rfl
    | httpError s =>
      by_cases hts : Worker.isTransientStatus s = true
      · simp [Worker.process_paper, hts]
      · have hts2 := Bool.not_eq_true _ ▸ hts
        by_cases h404 : (s == 404) = true
        · simp [Worker.process_paper, hts2, h404] at h
        · have h404b := Bool.not_eq_true _ ▸ h404
          simp [Worker.process_paper, hts2, h404b] at h
    | ok wd =>
      rcases hres : wd.results with _ | ⟨w, t⟩
      · simp [Worker.process_paper, hres] at h
      · by_cases hids : Worker.author_ids_of w = []
        · simp [Worker.process_paper, hres, hids] at h
        · cases ar with
          | exn => simp [Worker.process_paper, hres, hids]
          | ok recs => simp [Worker.process_paper, hres, hids] at h
          | httpError s =>
            by_cases hts : Worker.isTransientStatus s = true
            · simp [Worker.process_paper, hres, hids, hts]
            · have hts2 := Bool.not_eq_true _ ▸ hts
              by_cases h404 : (s == 404) = true
              · simp [Worker.process_paper, hres, hids, hts2, h404] at h
              · have h404b := Bool.not_eq_true _ ▸ h404
                simp [Worker.process_paper, hres, hids, hts2, h404b] at h
  · intro s hsr h400 h450 h429 h404
    subst hsr
    have hts2 : Worker.isTransientStatus s = false := by
      rw [Worker.isTransientStatus]
      simp
      omega
    have h404b : (s == 404) = false := by
      simp only [beq_eq_false_iff_ne, ne_eq]
      exact h404
    refine ⟨?_, ?_⟩ <;> simp [Worker.process_paper, hts2, h404b]
  · intro wd w t s hsr hres hids har h400 h450 h429 h404
    subst hsr
    subst har
    have hts2 : Worker.isTransientStatus s = false := by
      rw [Worker.isTransientStatus]
      simp
      omega
    have h404b : (s == 404) = false := by
      simp only [beq_eq_false_iff_ne, ne_eq]
      exact h404
    refine ⟨?_, ?_⟩ <;>
      (simp only [Worker.process_paper, hres]
       rw [if_neg hids]
       simp [hts2, h404b])
  · intro hsr
    subst hsr
    refine ⟨?_, ?_⟩ <;> simp [Worker.process_paper, Worker.isTransientStatus]
  · intro wd hsr hres
    subst hsr
    refine ⟨?_, ?_⟩ <;> simp [Worker.process_paper, hres]
  · intro wd w t hsr hres hids har
    subst hsr
    subst har
    have hts2 : Worker.isTransientStatus 404 = false := by decide
    refine ⟨?_, ?_⟩ <;>
      (simp only [Worker.process_paper, hres]
       rw [if_neg hids]
       simp [hts2])

/-- Witness for C2: a 503 on the search is retried (retriable write plus
re-raise), and a 400 on the search is a permanent error with no re-raise. -/
theorem claim_C2_witness :
    (Worker.process_paper (JVal.str "p") (JVal.str "t")
        (Worker.CallResult.httpError 503) Worker.CallResult.exn).raised = true ∧
    (Worker.process_paper (JVal.str "p") (JVal.str "t")
        (Worker.CallResult.httpError 503) Worker.CallResult.exn).writes =
      [Worker.S3Write.retriableError (Worker.retriableKey (JVal.str "p"))] ∧
    (Worker.process_paper (JVal.str "p") (JVal.str "t")
        (Worker.CallResult.httpError 400) Worker.CallResult.exn).writes =
      [Worker.S3Write.permanentError (Worker.permanentKey (pyStr (JVal.str "p")))
        ("HTTPError_" ++ toString 400)] ∧
    (Worker.process_paper (JVal.str "p") (JVal.str "t")
        (Worker.CallResult.httpError 400) Worker.CallResult.exn).raised = false := by
  have h503 := claim_C2 (JVal.str "p") (JVal.str "t")
    (Worker.CallResult.httpError 503) Worker.CallResult.exn
  have h400 := claim_C2 (JVal.str "p") (JVal.str "t")
    (Worker.CallResult.httpError 400) Worker.CallResult.exn
  have hraised : (Worker.process_paper (JVal.str "p") (JVal.str "t")
      (Worker.CallResult.httpError 503) Worker.CallResult.exn).raised = true :=
    h503.1.mpr (Or.inl (by decide))
  have h400p := h400.2.2.1 400 rfl (by decide) (by decide) (by decide) (by decide)
  exact ⟨hraised, h503.2.1 hraised, h400p.1, h400p.2⟩

end CitationPipeline
